import Mathlib

/-!
Verification development for the persistence and query layer in
src/scripts/database.js of the Brief feed reader.  The JavaScript code is
shallowly embedded: JS values occurring in the records and filters are modelled
by an explicit value type with JS strict-equality and truthiness semantics,
stateful IndexedDB stores become explicit lists of records, and the cursor
walks become recursive functions over those lists.
-/

/-- JS numbers as they occur in this program: integers (ids, dates, the 0/1
read encoding) and NaN (which arises from applying unary plus to undefined). -/
inductive JSNum where
  | nan
  | int (i : Int)

/-- The JS values stored in record fields and filter fields: undefined, null,
booleans, numbers, strings, and arrays. -/
inductive JSVal where
  | undef
  | null
  | bool (b : Bool)
  | num (n : JSNum)
  | str (s : String)
  | arr (elems : List JSVal)

/-- JS strict equality on numbers: NaN is equal to nothing, not even itself. -/
def jsNumEq : JSNum → JSNum → Bool
  | .nan, _ => false
  | _, .nan => false
  | .int a, .int b => a == b

/-- JS strict equality.  Values of different types are never equal; arrays
compare by reference, and the embedding never compares two aliases, so array
against array is false. -/
def jsEq : JSVal → JSVal → Bool
  | .undef, .undef => true
  | .null, .null => true
  | .bool a, .bool b => a == b
  | .num a, .num b => jsNumEq a b
  | .str a, .str b => a == b
  | _, _ => false

/-- JS truthiness: undefined, null, false, 0, NaN and the empty string are
falsy; every other value (including any array) is truthy. -/
def truthy : JSVal → Bool
  | .undef => false
  | .null => false
  | .bool b => b
  | .num .nan => false
  | .num (.int i) => !(i == 0)
  | .str s => !(s == "")
  | .arr _ => true

/-- Unary plus (ToNumber) on the tri-state query fields, which the caller-facing
API documents as boolean or undefined: +undefined is NaN, +false is 0,
+true is 1. -/
def plusOB : Option Bool → JSVal
  | none => .num .nan
  | some b => .num (.int (if b then 1 else 0))

/-- A tri-state query field taken as a raw JS value: undefined or a boolean. -/
def rawOB : Option Bool → JSVal
  | none => .undef
  | some b => .bool b

/-- View a stored tag list as the JS array value it is in the record. -/
def jsOfTags (ts : List String) : JSVal := .arr (ts.map .str)

/-- Prepend a character to the first piece of a split result (used while
scanning for separator occurrences). -/
def consHead (c : Char) : List (List Char) → List (List Char)
  | [] => [[c]]
  | h :: t => (c :: h) :: t

/-- JS String.prototype.split with the two-character separator comma-space:
repeatedly cut at the leftmost separator occurrence.  Splitting the empty
string yields one empty piece. -/
def splitCommaSpace : List Char → List (List Char)
  | [] => [[]]
  | [c] => [[c]]
  | c1 :: c2 :: rest =>
    if c1 = ',' ∧ c2 = ' ' then [] :: splitCommaSpace rest
    else consHead c1 (splitCommaSpace (c2 :: rest))

/-- The source expression tags.split of comma-space, on a Lean string. -/
def jsSplitCommaSpace (s : String) : List String :=
  (splitCommaSpace s.toList).map String.mk

/-- The source expression (tags or empty-string).split: a falsy tags value is
replaced by the empty string first; a truthy non-string has no split method,
which is a TypeError, modelled as none. -/
def splitTagsJS (v : JSVal) : Option (List String) :=
  match (if truthy v then v else .str "") with
  | .str s => some (jsSplitCommaSpace s)
  | _ => none

/-- A Feed record: feeds form a tree through the parent folder id. -/
structure Feed where
  feedID : Int
  parent : Option Int
  hidden : Bool
  omitInUnread : Bool
deriving DecidableEq

/-- The Entry record as written to the entries store by the record store. -/
structure StoredEntry where
  id : Int
  feedID : Int
  read : JSVal
  markedUnreadOnUpdate : JSVal
  starred : JSVal
  tags : List String
  deleted : JSVal
  providedID : JSVal
  entryURL : JSVal
  primaryHash : JSVal
  secondaryHash : JSVal
  date : Int
  revisions : List Int
  bookmarked : Bool

/-- The Revision record as written to the revisions store. -/
structure RevisionRec where
  id : Int
  authors : JSVal
  title : JSVal
  content : JSVal
  updated : JSVal

/-- A logical entry as passed to putEntries, before it is split into its
Entry and Revision records. -/
structure OrigEntry where
  id : Int
  feedID : Int
  read : JSVal
  markedUnreadOnUpdate : JSVal
  starred : JSVal
  tags : JSVal
  deleted : JSVal
  providedID : JSVal
  entryURL : JSVal
  primaryHash : JSVal
  secondaryHash : JSVal
  date : Int
  bookmarkID : JSVal
  authors : JSVal
  title : JSVal
  content : JSVal
  updated : JSVal

/-- The record split performed by Database._putEntry: copy the fixed ENTRY_FIELDS
and REVISION_FIELDS, set revisions to the one-element reference list, derive
bookmarked from bookmarkID, and rewrite tags from a delimited string to the
split array.  none models the TypeError thrown when tags is a truthy
non-string. -/
def putEntryRecords (o : OrigEntry) : Option (StoredEntry × RevisionRec) :=
  match splitTagsJS o.tags with
  | none => none
  | some ts =>
    some
      ({ id := o.id
         feedID := o.feedID
         read := o.read
         markedUnreadOnUpdate := o.markedUnreadOnUpdate
         starred := o.starred
         tags := ts
         deleted := o.deleted
         providedID := o.providedID
         entryURL := o.entryURL
         primaryHash := o.primaryHash
         secondaryHash := o.secondaryHash
         date := o.date
         revisions := [o.id]
         bookmarked := !(jsEq o.bookmarkID (.num (.int (-1)))) },
       { id := o.id
         authors := o.authors
         title := o.title
         content := o.content
         updated := o.updated })

/-- An IndexedDB object store keyed by an integer key path, as a list of
records; put is an upsert by key. -/
def putRec {α : Type} (key : α → Int) (store : List α) (a : α) : List α :=
  if store.any (fun x => key x == key a) then
    store.map (fun x => if key x == key a then a else x)
  else store ++ [a]

/-- IndexedDB get by key: the record whose key matches, if any. -/
def getRec {α : Type} (key : α → Int) (store : List α) (k : Int) : Option α :=
  store.find? (fun x => key x == k)

/-- The two object stores touched by putEntries. -/
structure EntryStores where
  revisions : List RevisionRec
  entries : List StoredEntry

/-- The effect of one _putEntry call on the stores (success path). -/
def putEntryPure (σ : EntryStores) (o : OrigEntry) : Option EntryStores :=
  match putEntryRecords o with
  | none => none
  | some (e, r) =>
    some { revisions := putRec RevisionRec.id σ.revisions r
           entries := putRec StoredEntry.id σ.entries e }

/-- putEntries over a list of entries, applying each _putEntry in order. -/
def putEntriesPure (σ : EntryStores) : List OrigEntry → Option EntryStores
  | [] => some σ
  | o :: os =>
    match putEntryPure σ o with
    | none => none
    | some σ1 => putEntriesPure σ1 os

/-- One write request queued on the readwrite transaction of putEntries. -/
inductive StoreOp where
  | putRev (r : RevisionRec)
  | putEnt (e : StoredEntry)

/-- Applying one queued write to the stores. -/
def applyOp (σ : EntryStores) : StoreOp → EntryStores
  | .putRev r => { σ with revisions := putRec RevisionRec.id σ.revisions r }
  | .putEnt e => { σ with entries := putRec StoredEntry.id σ.entries e }

/-- Applying a queue of writes in program order. -/
def applyOps (σ : EntryStores) (ops : List StoreOp) : EntryStores :=
  ops.foldl applyOp σ

/-- The two requests _putEntry issues for one entry, in program order:
revision put first, entry put second. -/
def putEntryOps (o : OrigEntry) : Option (List StoreOp) :=
  match putEntryRecords o with
  | none => none
  | some (e, r) => some [.putRev r, .putEnt e]

/-- The full request queue of one putEntries call: every entry of the batch
contributes its two puts to the same single transaction. -/
def putEntriesOps : List OrigEntry → Option (List StoreOp)
  | [] => some []
  | o :: os =>
    match putEntryOps o, putEntriesOps os with
    | some a, some b => some (a ++ b)
    | _, _ => none

/-- Modelled from the platform contract the code relies on (IndexedDB
transactions, spec section 4.2): a transaction is atomic — if every queued
request succeeds the whole queue is applied and the transaction promise
resolves, and if any request fails the transaction is rolled back, leaving the
stores unchanged, and the promise rejects.  The failure oracle says which
request positions fail. -/
def commitTx (σ : EntryStores) (ops : List StoreOp) (failing : Nat → Bool) :
    EntryStores × Bool :=
  if (List.range ops.length).any failing then (σ, false)
  else (applyOps σ ops, true)

/-- putEntries: build the whole batch's request queue on one transaction and
await that transaction; the resulting stores and the success flag. -/
def putEntriesModel (σ : EntryStores) (es : List OrigEntry)
    (failing : Nat → Bool) : Option (EntryStores × Bool) :=
  match putEntriesOps es with
  | none => none
  | some ops => some (commitTx σ ops failing)

/-- The children lists of the folder expansion: childrenMap is built by one
pass over the in-memory feed list, appending each node's feedID to the list
kept under its parent key, so looking up a node id yields the feedIDs whose
parent is that node, in feed-list order. -/
def childrenOf (feeds : List Feed) (node : Int) : List Int :=
  (feeds.filter (fun f => f.parent == some node)).map Feed.feedID

/-- The worklist loop of the folder expansion in Query._filters.  The JS loop
pops from the end of the worklist array and pushes the popped node's children
back; the Lean list holds the array reversed, so pop is head and push-back is
prepending the reversed children.  Fuel bounds the number of iterations; none
means the loop did not finish within the given fuel (on a cyclic parent
relation the JS loop does not terminate). -/
def foldersLoop (feeds : List Feed) : Nat → List Int → List Int → Option (List Int)
  | _, nodes, [] => some nodes
  | 0, _, _ :: _ => none
  | fuel + 1, nodes, w :: ws =>
    foldersLoop feeds fuel (nodes ++ [w]) ((childrenOf feeds w).reverse ++ ws)

/-- The folder stage of Query._filters: when folder ids are given, run the
worklist traversal from them and keep exactly the feeds whose id was
collected. -/
def folderStage (dbFeeds : List Feed) (folders : Option (List Int)) (fuel : Nat) :
    Option (List Feed) :=
  match folders with
  | none => some dbFeeds
  | some fs =>
    match foldersLoop dbFeeds fuel [] fs.reverse with
    | none => none
    | some nodes => some (dbFeeds.filter (fun f => nodes.contains f.feedID))

/-- The query filter specification, with the defaults of Query.prototype.
The tri-state entry flags are undefined or boolean, per the caller-facing
API. -/
structure QuerySpec where
  feeds : Option (List Int) := none
  folders : Option (List Int) := none
  tags : Option (List String) := none
  read : Option Bool := none
  starred : Option Bool := none
  deleted : Option Bool := none
  startDate : Option Int := none
  endDate : Option Int := none
  limit : Option Nat := none
  offset : Nat := 0
  sortOrder : Option String := none
  sortDirection : String := "desc"
  includeHiddenFeeds : Bool := false
  includeFeedsExcludedFromGlobalViews : Bool := true

/-- The feed-set resolution of Query._filters: folder expansion, then
intersection with an explicit feed list (which forces hidden feeds in), then
the default visibility filters. -/
def feedFilterStage (q : QuerySpec) (dbFeeds : List Feed) (fuel : Nat) :
    Option (List Feed) :=
  match folderStage dbFeeds q.folders fuel with
  | none => none
  | some af0 =>
    let p :=
      match q.feeds with
      | none => (af0, q.includeHiddenFeeds)
      | some fs => (af0.filter (fun f => fs.contains f.feedID), true)
    let af1 := if p.2 then p.1 else p.1.filter (fun f => !f.hidden)
    let af2 :=
      if q.includeFeedsExcludedFromGlobalViews then af1
      else af1.filter (fun f => !f.omitInUnread)
    some af2

/-- The compiled filter object built by Query._filters: the resolved feed id
set, the entry constraints (read and deleted coerced by unary plus, starred
taken raw), and the sort/pagination block. -/
structure CompiledFilters where
  feeds : List Int
  read : JSVal
  starred : JSVal
  deleted : JSVal
  tags : Option (List String)
  direction : String
  limit : Option Nat
  offset : Nat
  startDate : Option Int
  endDate : Option Int

/-- The result of running a query-engine routine: a thrown error, a loop that
ran out of fuel, or a value. -/
inductive CResult (α : Type) where
  | thrown (msg : String)
  | fuelOut
  | ok (val : α)
deriving DecidableEq

/-- The compiled filters built from a query and the resolved active feeds. -/
def mkCompiled (q : QuerySpec) (af : List Feed) : CompiledFilters :=
  { feeds := af.map Feed.feedID
    read := plusOB q.read
    starred := rawOB q.starred
    deleted := plusOB q.deleted
    tags := q.tags
    direction := q.sortDirection
    limit := q.limit
    offset := q.offset
    startDate := q.startDate
    endDate := q.endDate }

/-- Query._filters: resolve the feed set, build the entry constraints, and
throw on a defined sort order other than date. -/
def compileFilters (q : QuerySpec) (dbFeeds : List Feed) (fuel : Nat) :
    CResult CompiledFilters :=
  match feedFilterStage q dbFeeds fuel with
  | none => .fuelOut
  | some af =>
    match q.sortOrder with
    | some s =>
      if s = "date" then .ok (mkCompiled q af)
      else .thrown ("Invalid sort order: " ++ s)
    | none => .ok (mkCompiled q af)

/-- The in-memory predicate of Query._searchEngine, evaluated on each record
visited by the cursor.  filters.feeds is always an array (arrays are truthy),
so the membership test always runs. -/
def filterFunction (flt : CompiledFilters) (entry : StoredEntry) : Bool :=
  flt.feeds.contains entry.feedID &&
  (jsEq flt.read .undef || jsEq flt.read entry.read) &&
  (jsEq flt.starred .undef || jsEq flt.starred entry.starred) &&
  (jsEq flt.deleted .undef || jsEq flt.deleted entry.deleted) &&
  (match flt.tags with
   | none => true
   | some ts => ts.any (fun t => entry.tags.contains t)) &&
  (match flt.startDate with
   | none => true
   | some s => decide (s ≤ entry.date)) &&
  (match flt.endDate with
   | none => true
   | some e => decide (entry.date ≤ e))

/-- Decrement the remaining limit; an unspecified limit is Infinity and stays
Infinity. -/
def limitDec : Option Nat → Option Nat
  | none => none
  | some l => some (l - 1)

/-- The cursor walk of Query.count over the entries visited by the index
cursor: once the remaining limit is at most zero the cursor is not advanced
further; a record failing the predicate is skipped; a passing record first
consumes offset and only then counts toward the answer and consumes limit. -/
def countLoop (flt : CompiledFilters) :
    List StoredEntry → Nat → Option Nat → Nat → Nat
  | [], _, _, answer => answer
  | e :: rest, offset, limit, answer =>
    match limit with
    | some 0 => answer
    | _ =>
      if filterFunction flt e then
        if 0 < offset then countLoop flt rest (offset - 1) limit answer
        else countLoop flt rest offset (limitDec limit) (answer + 1)
      else countLoop flt rest offset limit answer

/-- Query.count end to end: compile the filters (which may throw), let
_searchEngine reject a non-descending direction before any cursor is opened,
then scan the entries store through the hardcoded index and count. -/
def countResult (q : QuerySpec) (dbFeeds : List Feed)
    (entries : List StoredEntry) (fuel : Nat) : CResult Nat :=
  match compileFilters q dbFeeds fuel with
  | .thrown m => .thrown m
  | .fuelOut => .fuelOut
  | .ok flt =>
    if flt.direction = "desc" then
      .ok (countLoop flt entries flt.offset flt.limit 0)
    else .thrown "asc not supported yet"

/-- An entry record as seen by the migration's read-field rewrite: the read
field and the remaining properties, which the rewrite leaves untouched. -/
structure MigEntry where
  read : JSVal
  rest : List (String × JSVal)

/-- The body of the migration cursor loop: value.read becomes 1 when the old
value is truthy and 0 otherwise. -/
def rewriteRead (e : MigEntry) : MigEntry :=
  { e with read := if truthy e.read then .num (.int 1) else .num (.int 0) }

/-- The on-disk layout acted on by Database.upgrade. -/
structure DBSchema where
  revisionsStore : Bool
  entriesStore : Bool
  entryIndices : List String
  feedsStore : Bool
  entries : List MigEntry

/-- Migration step of case 0: create the revisions and entries stores and the
six entry indices. -/
def step0 (db : DBSchema) : DBSchema :=
  { db with
    revisionsStore := true
    entriesStore := true
    entryIndices := db.entryIndices ++
      ["date", "feedID_date", "primaryHash", "bookmarkID", "entryURL", "tagName"] }

/-- Migration step of case 10: create the feeds store (no indices). -/
def step10 (db : DBSchema) : DBSchema :=
  { db with feedsStore := true }

/-- Migration step of case 20: add the composite index and rewrite every
entry's read field to the 0/1 encoding by a full cursor scan. -/
def step20 (db : DBSchema) : DBSchema :=
  { db with
    entryIndices := db.entryIndices ++ ["deleted_read_feedID_date"]
    entries := db.entries.map rewriteRead }

/-- Database.upgrade: a switch on the old on-disk version whose cases 0, 10
and 20 fall through in increasing order; any other version matches no case
and applies nothing. -/
def upgrade (oldVersion : Nat) (db : DBSchema) : DBSchema :=
  match oldVersion with
  | 0 => step20 (step10 (step0 db))
  | 10 => step20 (step10 db)
  | 20 => step20 db
  | _ => db

/-- saveFeeds on the primary store: clear the Feed store, then put every feed
of the list (an upsert keyed by feedID). -/
def saveFeedsPrimary (feeds : List Feed) : List Feed :=
  feeds.foldl (putRec Feed.feedID) []

/-- loadFeeds: read the Feed store fully; if it is empty fall back to the
local backup (whose get defaults to the current, empty, list), then to the
synced backup, and re-save whatever was recovered into the primary store.
The result is the loaded feed list paired with the primary store contents
afterwards. -/
def loadFeeds (primary : List Feed) (localB syncB : Option (List Feed)) :
    List Feed × List Feed :=
  if primary.length = 0 then
    let feeds1 := localB.getD []
    let feeds2 := if feeds1.length = 0 then syncB.getD [] else feeds1
    (feeds2, saveFeedsPrimary feeds2)
  else (primary, primary)

/-- The error message count surfaces for an unsupported sort configuration:
a defined non-date sort order throws from _filters first; otherwise the
ascending direction throws from _searchEngine. -/
def invalidSortMsg (q : QuerySpec) : String :=
  match q.sortOrder with
  | some s => if s = "date" then "asc not supported yet" else "Invalid sort order: " ++ s
  | none => "asc not supported yet"

/-- A one-feed database used by the concrete scenarios. -/
def exFeeds : List Feed := [{ feedID := 1, parent := none, hidden := false, omitInUnread := false }]

/-- A stored entry of that feed with the post-migration 0/1 read encoding. -/
def exEntry : StoredEntry :=
  { id := 1
    feedID := 1
    read := .num (.int 0)
    markedUnreadOnUpdate := .bool false
    starred := .bool false
    tags := [""]
    deleted := .num (.int 0)
    providedID := .str "p"
    entryURL := .str "u"
    primaryHash := .str "h"
    secondaryHash := .str "s"
    date := 100
    revisions := [1]
    bookmarked := false }

/-- The all-defaults query specification (every filter dimension left
undefined). -/
def q0 : QuerySpec := {}

/-- A base logical entry for the record-store scenarios. -/
def oBase : OrigEntry :=
  { id := 1
    feedID := 1
    read := .num (.int 0)
    markedUnreadOnUpdate := .bool false
    starred := .bool false
    tags := .undef
    deleted := .num (.int 0)
    providedID := .str "p"
    entryURL := .str "u"
    primaryHash := .str "h"
    secondaryHash := .str "s"
    date := 100
    bookmarkID := .num (.int (-1))
    authors := .str "a"
    title := .str "t"
    content := .str "c"
    updated := .num (.int 7) }

/-- Empty entry and revision stores. -/
def emptyStores : EntryStores := { revisions := [], entries := [] }

/-- A database whose schema holds nothing yet, as before any migration. -/
def emptyDB : DBSchema :=
  { revisionsStore := false
    entriesStore := false
    entryIndices := []
    feedsStore := false
    entries := [] }

/-- Feed A, the root of the example feed tree. -/
def feedA : Feed := { feedID := 1, parent := none, hidden := false, omitInUnread := false }

/-- Feed B, whose parent is A. -/
def feedB : Feed := { feedID := 2, parent := some 1, hidden := false, omitInUnread := false }

/-- Feed C, whose parent is B. -/
def feedC : Feed := { feedID := 3, parent := some 2, hidden := false, omitInUnread := false }

/-- The feed tree A to B to C of the folder-expansion scenario: C's parent is
B and B's parent is A. -/
def exTree : List Feed := [feedA, feedB, feedC]

/-- Feeds reachable from a set of folder roots by following the
parent-to-children relation transitively. -/
inductive ReachableFrom (feeds : List Feed) (roots : List Int) : Int → Prop
  | root {x : Int} : x ∈ roots → ReachableFrom feeds roots x
  | child {x y : Int} : ReachableFrom feeds roots y → x ∈ childrenOf feeds y →
      ReachableFrom feeds roots x

/-- The revision record _putEntry builds from the base logical entry. -/
def rBase : RevisionRec :=
  { id := 1, authors := .str "a", title := .str "t", content := .str "c",
    updated := .num (.int 7) }

/-- The base logical entry with a two-tag delimited string. -/
def oXY : OrigEntry := { oBase with tags := .str "x, y" }

/-- The base logical entry with a second id, for the batch scenario. -/
def oB2 : OrigEntry := { oBase with id := 2 }

/-- A query constraining read and deleted, skipping one result and keeping at
most two. -/
def q4 : QuerySpec :=
  { read := some false, deleted := some false, limit := some 2, offset := 1 }

/-- Further entries of the example feed, older than exEntry. -/
def exEntry2 : StoredEntry := { exEntry with id := 2, date := 90 }

/-- A third entry of the example feed. -/
def exEntry3 : StoredEntry := { exEntry with id := 3, date := 80 }

/-- A query requesting the unsupported title sort order. -/
def qTitle : QuerySpec := { sortOrder := some "title" }

/-- Splitting a character list at comma-space separators never yields an
empty list of pieces. -/
theorem splitCommaSpace_ne_nil : ∀ l : List Char, splitCommaSpace l ≠ [] := by
  intro l
  match l with
  | [] => simp [splitCommaSpace]
  | [c] => simp [splitCommaSpace]
  | c1 :: c2 :: rest =>
    simp only [splitCommaSpace]
    split
    · simp
    · cases h : splitCommaSpace (c2 :: rest) <;> simp [consHead]

/-- The JS split of any string yields at least one piece. -/
theorem jsSplitCommaSpace_ne_nil (s : String) : jsSplitCommaSpace s ≠ [] := by
  unfold jsSplitCommaSpace
  intro hmap
  exact splitCommaSpace_ne_nil s.toList (List.map_eq_nil_iff.mp hmap)

/-- A successful tags split is never the empty array. -/
theorem splitTagsJS_ne_nil (v : JSVal) (ts : List String)
    (h : splitTagsJS v = some ts) : ts ≠ [] := by
  unfold splitTagsJS at h
  split at h
  · have hts := Option.some.inj h
    intro hnil
    rw [hnil] at hts
    exact jsSplitCommaSpace_ne_nil _ hts
  · exact Option.noConfusion h

/-- Claim C1 (refuted by the code, which contradicts its own guard): with
read and deleted left unspecified, the compiled constraint is +undefined,
that is NaN, and NaN is strictly equal to nothing, so the unconstrained-field
guard of filterFunction never fires and count() excludes every entry: the
all-defaults query counts 0 over a store whose sole entry satisfies every
other constraint, while the same query with read and deleted specified as
false counts that entry. -/
theorem count_unspecified_read_bug :
    countResult q0 exFeeds [exEntry] 1 = .ok 0 ∧
    countResult { q0 with read := some false, deleted := some false }
      exFeeds [exEntry] 1 = .ok 1 ∧
    plusOB none = .num .nan ∧
    (∀ v : JSVal, jsEq (.num .nan) v = false) := by
  refine ⟨rfl, rfl, rfl, ?_⟩
  intro v
  cases v <;> simp [jsEq, jsNumEq]

/-- Claim C2 counterexample: opening at on-disk version 5 (below 30, and at
most 10) applies no migration step at all — in particular the feed store is
not created, though the claim requires the version-10 step for every V at
most 10. -/
theorem upgrade_skips_intermediate_version :
    upgrade 5 emptyDB = emptyDB ∧ (upgrade 5 emptyDB).feedsStore = false ∧
    5 < 30 := by
  exact ⟨rfl, rfl, by omega⟩

/-- Claim C2 amended: the migration switch matches the stored version exactly,
so only versions 0, 10 and 20 trigger steps — version 0 applies the three
steps in increasing order, version 10 the last two, version 20 the last one,
and every other starting version below 30 applies nothing. -/
theorem upgrade_exact_cases (V : Nat) (db : DBSchema) (hV : V < 30) :
    upgrade V db =
      if V = 0 then step20 (step10 (step0 db))
      else if V = 10 then step20 (step10 db)
      else if V = 20 then step20 db
      else db := by
  interval_cases V <;> rfl

/-- Witness for the amended C2 at version 10. -/
theorem upgrade_exact_cases_witness :
    upgrade 10 emptyDB = step20 (step10 emptyDB) :=
  (upgrade_exact_cases 10 emptyDB (by omega)).trans rfl

/-- Claim C9: the migration's read rewrite maps a truthy read to 1 and a
falsy read to 0, hence running the store-wide rewrite twice equals running it
once, and an entry whose read field is already the 0/1 encoding of a boolean
is left unchanged. -/
theorem read_rewrite_idempotent :
    (∀ es : List MigEntry,
      (es.map rewriteRead).map rewriteRead = es.map rewriteRead) ∧
    (∀ (b : Bool) (rest : List (String × JSVal)),
      rewriteRead { read := .num (.int (if b then 1 else 0)), rest := rest } =
        { read := .num (.int (if b then 1 else 0)), rest := rest }) := by
  have h1 : truthy (JSVal.num (.int 1)) = true := rfl
  have h0 : truthy (JSVal.num (.int 0)) = false := rfl
  have hpt : ∀ e : MigEntry, rewriteRead (rewriteRead e) = rewriteRead e := by
    intro e
    cases htr : truthy e.read <;> simp [rewriteRead, htr, h0, h1]
  constructor
  · intro es
    rw [List.map_map]
    exact List.map_congr_left (fun e _ => hpt e)
  · intro b rest
    cases b <;> simp [rewriteRead, h0, h1]

/-- Claim C10: every Entry record written by _putEntry has a non-empty tags
array, and an entry whose tags field is undefined, null or the empty string
is stored with the one-element array holding the empty string, which a tag
filter containing the empty string matches. -/
theorem putEntry_tags_nonempty (o : OrigEntry) (e : StoredEntry)
    (r : RevisionRec) (h : putEntryRecords o = some (e, r)) :
    e.tags ≠ [] ∧
    ((o.tags = .undef ∨ o.tags = .null ∨ o.tags = .str "") →
      (e.tags = [""] ∧ ∀ ts : List String, "" ∈ ts →
        ts.any (fun t => e.tags.contains t) = true)) := by
  unfold putEntryRecords at h
  cases hs : splitTagsJS o.tags with
  | none => rw [hs] at h; exact Option.noConfusion h
  | some ts =>
    rw [hs] at h
    have hpair := Option.some.inj h
    injection hpair with he1 hr1
    have he : e.tags = ts := (congrArg StoredEntry.tags he1).symm
    constructor
    · rw [he]; exact splitTagsJS_ne_nil o.tags ts hs
    · intro hcase
      have hts : ts = [""] := by
        rcases hcase with h1 | h1 | h1 <;>
          (rw [h1] at hs; exact (Option.some.inj hs).symm)
      have hetags : e.tags = [""] := he.trans hts
      refine ⟨hetags, ?_⟩
      intro fts hmem
      rw [List.any_eq_true]
      exact ⟨"", hmem, by rw [hetags]; rfl⟩

/-- Witness for C10 on the base entry, whose tags field is undefined. -/
theorem putEntry_tags_nonempty_witness :
    exEntry.tags ≠ [] ∧ exEntry.tags = [""] ∧
    ([""].any (fun t => exEntry.tags.contains t) = true) := by
  have h := putEntry_tags_nonempty oBase exEntry rBase rfl
  have h2 := h.2 (Or.inl rfl)
  exact ⟨h.1, h2.1, h2.2 [""] (by simp)⟩

/-- Replacing the record whose key matches and then looking that key up finds
the replacement, provided some record with that key was present. -/
theorem find_map_put {α : Type} (key : α → Int) (a : α) :
    ∀ s : List α, s.any (fun x => key x == key a) = true →
      (s.map (fun x => if key x == key a then a else x)).find?
        (fun x => key x == key a) = some a := by
  intro s
  induction s with
  | nil => intro h; simp at h
  | cons x xs ih =>
    intro h
    by_cases hx : (key x == key a) = true
    · rw [List.map_cons, if_pos hx]
      exact List.find?_cons_of_pos _ (by simp)
    · have hxs : xs.any (fun x => key x == key a) = true := by
        rw [List.any_cons] at h
        rcases Bool.or_eq_true_iff.mp h with h1 | h1
        · exact absurd h1 hx
        · exact h1
      rw [List.map_cons, if_neg hx, List.find?_cons_of_neg _ (by simpa using hx)]
      exact ih hxs

/-- Appending a record whose key was absent and then looking its key up finds
the appended record. -/
theorem find_append_put {α : Type} (key : α → Int) (a : α) :
    ∀ s : List α, s.any (fun x => key x == key a) = false →
      (s ++ [a]).find? (fun x => key x == key a) = some a := by
  intro s
  induction s with
  | nil =>
    intro _
    rw [List.nil_append]
    exact List.find?_cons_of_pos _ (by simp)
  | cons x xs ih =>
    intro h
    rw [List.any_cons, Bool.or_eq_false_iff] at h
    rw [List.cons_append, List.find?_cons_of_neg _ (by simp [h.1])]
    exact ih h.2

/-- Keyed-store round trip: putting a record and getting its key back yields
that record. -/
theorem getRec_putRec {α : Type} (key : α → Int) (s : List α) (a : α) :
    getRec key (putRec key s a) (key a) = some a := by
  unfold getRec putRec
  by_cases h : s.any (fun x => key x == key a) = true
  · rw [if_pos h]
    exact find_map_put key a s h
  · rw [if_neg h]
    exact find_append_put key a s (Bool.not_eq_true _ ▸ h)

/-- Claim C3 counterexample: writing an entry whose tags field is the string
consisting of the letter a and reading the Entry record back by id yields a
tags field that is the one-element array of that string, which is not
strictly or structurally equal to the input's tags string — the fixed field
tags does not round-trip exactly. -/
theorem putEntries_tags_not_roundtrip :
    (putEntriesPure emptyStores [{ oBase with tags := .str "a" }]).bind
      (fun σ => (getRec StoredEntry.id σ.entries 1).map (fun e => jsOfTags e.tags)) =
      some (.arr [.str "a"]) ∧
    ({ oBase with tags := .str "a" } : OrigEntry).tags = .str "a" ∧
    JSVal.arr [.str "a"] ≠ .str "a" :=
  ⟨rfl, rfl, nofun⟩

/-- Claim C3 amended: for an entry written via putEntries, reading the Entry
and Revision records back by the entry's id gives records whose fixed fields
equal the corresponding input fields exactly, except tags, which is stored as
the comma-space split of the input tags string (the empty-string split when
tags is falsy). -/
theorem putEntries_roundtrip_amended (σ σ2 : EntryStores) (o : OrigEntry)
    (h : putEntriesPure σ [o] = some σ2) :
    ∃ e r, getRec StoredEntry.id σ2.entries o.id = some e ∧
      getRec RevisionRec.id σ2.revisions o.id = some r ∧
      e.id = o.id ∧ e.feedID = o.feedID ∧ e.read = o.read ∧
      e.markedUnreadOnUpdate = o.markedUnreadOnUpdate ∧ e.starred = o.starred ∧
      e.deleted = o.deleted ∧ e.providedID = o.providedID ∧
      e.entryURL = o.entryURL ∧ e.primaryHash = o.primaryHash ∧
      e.secondaryHash = o.secondaryHash ∧ e.date = o.date ∧
      splitTagsJS o.tags = some e.tags ∧
      r.id = o.id ∧ r.authors = o.authors ∧ r.title = o.title ∧
      r.content = o.content ∧ r.updated = o.updated := by
  unfold putEntriesPure at h
  cases hp : putEntryPure σ o with
  | none => rw [hp] at h; exact Option.noConfusion h
  | some σ1 =>
    rw [hp] at h
    have hσ : σ1 = σ2 := Option.some.inj h
    subst hσ
    unfold putEntryPure at hp
    cases hpr : putEntryRecords o with
    | none => rw [hpr] at hp; exact Option.noConfusion hp
    | some p =>
      rw [hpr] at hp
      have hσ1 := (Option.some.inj hp).symm
      obtain ⟨e, r⟩ := p
      refine ⟨e, r, ?_, ?_, ?_⟩
      · rw [hσ1]
        have hid : e.id = o.id := by
          unfold putEntryRecords at hpr
          cases hs : splitTagsJS o.tags with
          | none => rw [hs] at hpr; exact Option.noConfusion hpr
          | some ts =>
            rw [hs] at hpr
            injection Option.some.inj hpr with he1 hr1
            exact (congrArg StoredEntry.id he1).symm
        rw [← hid]
        exact getRec_putRec StoredEntry.id σ.entries e
      · rw [hσ1]
        have hid : r.id = o.id := by
          unfold putEntryRecords at hpr
          cases hs : splitTagsJS o.tags with
          | none => rw [hs] at hpr; exact Option.noConfusion hpr
          | some ts =>
            rw [hs] at hpr
            injection Option.some.inj hpr with he1 hr1
            exact (congrArg RevisionRec.id hr1).symm
        rw [← hid]
        exact getRec_putRec RevisionRec.id σ.revisions r
      · unfold putEntryRecords at hpr
        cases hs : splitTagsJS o.tags with
        | none => rw [hs] at hpr; exact Option.noConfusion hpr
        | some ts =>
          rw [hs] at hpr
          injection Option.some.inj hpr with he1 hr1
          rw [← he1, ← hr1]
          exact ⟨rfl, rfl, rfl, rfl, rfl, rfl, rfl, rfl, rfl, rfl, rfl, rfl,
            rfl, rfl, rfl, rfl, rfl⟩

/-- Witness for the amended C3 on the two-tag entry. -/
theorem putEntries_roundtrip_amended_witness :
    ∃ e r, getRec StoredEntry.id
        ((putEntriesPure emptyStores [oXY]).getD emptyStores).entries oXY.id = some e ∧
      getRec RevisionRec.id
        ((putEntriesPure emptyStores [oXY]).getD emptyStores).revisions oXY.id = some r ∧
      e.id = oXY.id ∧ e.feedID = oXY.feedID ∧ e.read = oXY.read ∧
      e.markedUnreadOnUpdate = oXY.markedUnreadOnUpdate ∧ e.starred = oXY.starred ∧
      e.deleted = oXY.deleted ∧ e.providedID = oXY.providedID ∧
      e.entryURL = oXY.entryURL ∧ e.primaryHash = oXY.primaryHash ∧
      e.secondaryHash = oXY.secondaryHash ∧ e.date = oXY.date ∧
      splitTagsJS oXY.tags = some e.tags ∧
      r.id = oXY.id ∧ r.authors = oXY.authors ∧ r.title = oXY.title ∧
      r.content = oXY.content ∧ r.updated = oXY.updated :=
  putEntries_roundtrip_amended emptyStores
    ((putEntriesPure emptyStores [oXY]).getD emptyStores) oXY rfl

/-- Claim C6: when the primary feed store is empty and the local backup is
non-empty, loadFeeds yields the local backup regardless of the sync backup,
and repopulates the primary store with it. -/
theorem loadFeeds_local_backup_precedence (lb sb : Option (List Feed))
    (h : (lb.getD []).length ≠ 0) :
    loadFeeds [] lb sb = (lb.getD [], saveFeedsPrimary (lb.getD [])) := by
  unfold loadFeeds
  simp [h]

/-- Witness for C6: local backup with feed 5 wins over sync backup with feed
9, and the primary store is repopulated with feed 5. -/
theorem loadFeeds_local_backup_precedence_witness :
    loadFeeds []
      (some [{ feedID := 5, parent := none, hidden := false, omitInUnread := false }])
      (some [{ feedID := 9, parent := none, hidden := false, omitInUnread := false }]) =
      ([{ feedID := 5, parent := none, hidden := false, omitInUnread := false }],
       [{ feedID := 5, parent := none, hidden := false, omitInUnread := false }]) :=
  (loadFeeds_local_backup_precedence
    (some [{ feedID := 5, parent := none, hidden := false, omitInUnread := false }])
    (some [{ feedID := 9, parent := none, hidden := false, omitInUnread := false }])
    (by decide)).trans rfl

/-- Claim C8: one putEntries call queues every entry's two records on a single
transaction, so under the backend's atomic commit the batch is all-or-nothing:
if any request fails the stores are unchanged and otherwise every record of
the batch is applied. -/
theorem putEntries_atomic (σ : EntryStores) (es : List OrigEntry)
    (failing : Nat → Bool) (ops : List StoreOp)
    (h : putEntriesOps es = some ops) :
    (putEntriesModel σ es failing = some (σ, false) ∧
      (List.range ops.length).any failing = true) ∨
    (putEntriesModel σ es failing = some (applyOps σ ops, true) ∧
      (List.range ops.length).any failing = false) := by
  unfold putEntriesModel commitTx
  rw [h]
  cases hf : (List.range ops.length).any failing
  · right
    simp [hf]
  · left
    simp [hf]

/-- Witness for C8 on a two-entry batch with no failing request. -/
theorem putEntries_atomic_witness :
    (putEntriesModel emptyStores [oBase, oB2] (fun _ => false) =
        some (emptyStores, false) ∧
      (List.range ((putEntriesOps [oBase, oB2]).getD []).length).any
        (fun _ => false) = true) ∨
    (putEntriesModel emptyStores [oBase, oB2] (fun _ => false) =
        some (applyOps emptyStores ((putEntriesOps [oBase, oB2]).getD []), true) ∧
      (List.range ((putEntriesOps [oBase, oB2]).getD []).length).any
        (fun _ => false) = false) :=
  putEntries_atomic emptyStores [oBase, oB2] (fun _ => false)
    ((putEntriesOps [oBase, oB2]).getD []) rfl

/-- The count cursor walk with a finite remaining limit computes the minimum
of the limit and the predicate-satisfying count beyond the offset. -/
theorem countLoop_limit_eq (flt : CompiledFilters) :
    ∀ (es : List StoredEntry) (O L A : Nat),
      countLoop flt es O (some L) A =
        A + min L ((es.filter (fun e => filterFunction flt e)).length - O) := by
  intro es
  induction es with
  | nil => intro O L A; simp [countLoop]
  | cons e rest ih =>
    intro O L A
    cases L with
    | zero => simp [countLoop]
    | succ L1 =>
      cases hfe : filterFunction flt e with
      | false =>
        simp only [countLoop, List.filter_cons, hfe, if_false, Bool.false_eq_true]
        exact ih O (L1 + 1) A
      | true =>
        cases O with
        | zero =>
          simp only [countLoop, List.filter_cons, hfe, if_true, limitDec,
            Nat.lt_irrefl, if_false]
          rw [ih 0 (L1 + 1 - 1) (A + 1)]
          simp only [List.length_cons, Nat.add_sub_cancel]
          omega
        | succ O1 =>
          simp only [countLoop, List.filter_cons, hfe, if_true,
            Nat.succ_sub_one, Nat.zero_lt_succ]
          rw [ih O1 (L1 + 1) A]
          simp only [List.length_cons]
          omega

/-- The count cursor walk with an unspecified limit computes the
predicate-satisfying count beyond the offset. -/
theorem countLoop_nolimit_eq (flt : CompiledFilters) :
    ∀ (es : List StoredEntry) (O A : Nat),
      countLoop flt es O none A =
        A + ((es.filter (fun e => filterFunction flt e)).length - O) := by
  intro es
  induction es with
  | nil => intro O A; simp [countLoop]
  | cons e rest ih =>
    intro O A
    cases hfe : filterFunction flt e with
    | false =>
      simp only [countLoop, List.filter_cons, hfe, if_false, Bool.false_eq_true]
      exact ih O A
    | true =>
      cases O with
      | zero =>
        simp only [countLoop, List.filter_cons, hfe, if_true, limitDec,
          Nat.lt_irrefl, if_false]
        rw [ih 0 (A + 1)]
        simp only [List.length_cons]
        omega
      | succ O1 =>
        simp only [countLoop, List.filter_cons, hfe, if_true,
          Nat.succ_sub_one, Nat.zero_lt_succ]
        rw [ih O1 A]
        simp only [List.length_cons]
        omega

/-- A successful compilation copies limit, offset and direction from the
query, and happens only when the sort order is undefined or date. -/
theorem compileFilters_ok_fields (q : QuerySpec) (dbFeeds : List Feed)
    (fuel : Nat) (flt : CompiledFilters)
    (h : compileFilters q dbFeeds fuel = .ok flt) :
    flt.limit = q.limit ∧ flt.offset = q.offset ∧
    flt.direction = q.sortDirection ∧
    (q.sortOrder = none ∨ q.sortOrder = some "date") := by
  unfold compileFilters at h
  cases hfs : feedFilterStage q dbFeeds fuel with
  | none => rw [hfs] at h; exact CResult.noConfusion h
  | some af =>
    rw [hfs] at h
    dsimp only at h
    cases hso : q.sortOrder with
    | none =>
      rw [hso] at h
      dsimp only at h
      have hflt := CResult.ok.inj h
      rw [← hflt]
      exact ⟨rfl, rfl, rfl, Or.inl rfl⟩
    | some s =>
      rw [hso] at h
      dsimp only at h
      by_cases hs : s = "date"
      · rw [if_pos hs] at h
        have hflt := CResult.ok.inj h
        rw [← hflt]
        exact ⟨rfl, rfl, rfl, Or.inr (by rw [hs])⟩
      · rw [if_neg hs] at h
        exact CResult.noConfusion h

/-- Claim C4: for a query that compiles (and asks for the supported
descending direction), count() returns min(limit, max(0, matches − offset)),
and with limit unspecified max(0, matches − offset), where matches is the
number of stored entries satisfying the compiled predicate. -/
theorem count_pagination_law (q : QuerySpec) (dbFeeds : List Feed)
    (entries : List StoredEntry) (fuel : Nat) (flt : CompiledFilters)
    (hc : compileFilters q dbFeeds fuel = .ok flt)
    (hd : q.sortDirection = "desc") :
    countResult q dbFeeds entries fuel =
      .ok (match q.limit with
        | none => (entries.filter (fun e => filterFunction flt e)).length - q.offset
        | some L =>
            min L ((entries.filter (fun e => filterFunction flt e)).length - q.offset)) := by
  obtain ⟨hl, ho, hdir, _⟩ := compileFilters_ok_fields q dbFeeds fuel flt hc
  have hred : countResult q dbFeeds entries fuel =
      if flt.direction = "desc" then
        CResult.ok (countLoop flt entries flt.offset flt.limit 0)
      else CResult.thrown "asc not supported yet" := by
    unfold countResult
    rw [hc]
  rw [hred, hdir, hd, if_pos rfl, ho, hl]
  cases q.limit with
  | none => rw [countLoop_nolimit_eq]; simp
  | some L => rw [countLoop_limit_eq]; simp

/-- Witness for C4: with read and deleted false, three matching entries,
offset 1 and limit 2, count is min(2, 3 − 1) = 2. -/
theorem count_pagination_law_witness :
    countResult q4 exFeeds [exEntry, exEntry2, exEntry3] 1 = .ok 2 :=
  (count_pagination_law q4 exFeeds [exEntry, exEntry2, exEntry3] 1
    (mkCompiled q4 exFeeds) rfl rfl).trans rfl

/-- Claim C5: a defined sort order other than date, or a sort direction other
than descending, makes count() raise the configuration error before the scan:
whatever the entries store holds, the result is the thrown error and no
count is produced.  The fuel hypothesis says the folder traversal, which the
code runs before the sort validation, terminates. -/
theorem count_invalid_sort_error (q : QuerySpec) (dbFeeds : List Feed)
    (fuel : Nat)
    (h : (∃ s, q.sortOrder = some s ∧ s ≠ "date") ∨ q.sortDirection ≠ "desc")
    (hterm : feedFilterStage q dbFeeds fuel ≠ none) :
    ∀ entries : List StoredEntry,
      countResult q dbFeeds entries fuel = .thrown (invalidSortMsg q) := by
  intro entries
  unfold countResult compileFilters
  cases hfs : feedFilterStage q dbFeeds fuel with
  | none => exact absurd hfs hterm
  | some af =>
    cases hso : q.sortOrder with
    | some s =>
      by_cases hs : s = "date"
      · have hd : q.sortDirection ≠ "desc" := by
          rcases h with ⟨s2, hs2, hne⟩ | hd
          · rw [hso] at hs2
            exact absurd (hs ▸ Option.some.inj hs2.symm) hne
          · exact hd
        simp [hs, hd, invalidSortMsg, hso, mkCompiled]
      · simp [hs, invalidSortMsg, hso]
    | none =>
      have hd : q.sortDirection ≠ "desc" := by
        rcases h with ⟨s2, hs2, _⟩ | hd
        · rw [hso] at hs2
          exact Option.noConfusion hs2
        · exact hd
      simp [invalidSortMsg, hso, hd, mkCompiled]

/-- Witness for C5: the title sort order fails with the configuration error
on a non-empty store. -/
theorem count_invalid_sort_error_witness :
    countResult qTitle exFeeds [exEntry] 1 = .thrown "Invalid sort order: title" :=
  (count_invalid_sort_error qTitle exFeeds 1
    (Or.inl ⟨"title", rfl, by decide⟩) (by decide) [exEntry]).trans rfl

/-- Everything initially collected or on the worklist ends up in the result
of the folder traversal. -/
theorem foldersLoop_mem (feeds : List Feed) :
    ∀ (fuel : Nat) (nodes ws res : List Int),
      foldersLoop feeds fuel nodes ws = some res →
      ∀ x : Int, (x ∈ nodes ∨ x ∈ ws) → x ∈ res := by
  intro fuel
  induction fuel with
  | zero =>
    intro nodes ws res h x hx
    cases ws with
    | nil =>
      simp only [foldersLoop, Option.some.injEq] at h
      subst h
      rcases hx with h1 | h2
      · exact h1
      · exact absurd h2 (List.not_mem_nil x)
    | cons w ws2 => exact Option.noConfusion h
  | succ f ih =>
    intro nodes ws res h x hx
    cases ws with
    | nil =>
      simp only [foldersLoop, Option.some.injEq] at h
      subst h
      rcases hx with h1 | h2
      · exact h1
      · exact absurd h2 (List.not_mem_nil x)
    | cons w ws2 =>
      simp only [foldersLoop] at h
      apply ih _ _ _ h x
      rcases hx with h1 | h2
      · exact Or.inl (List.mem_append_left _ h1)
      · rcases List.mem_cons.mp h2 with h3 | h3
        · exact Or.inl (List.mem_append_right _ (h3 ▸ List.mem_singleton_self w))
        · exact Or.inr (List.mem_append_right _ h3)

/-- Every node in the traversal result outside the initial collection has all
its children in the result too. -/
theorem foldersLoop_closed (feeds : List Feed) :
    ∀ (fuel : Nat) (nodes ws res : List Int),
      foldersLoop feeds fuel nodes ws = some res →
      ∀ x ∈ res, x ∈ nodes ∨ ∀ c ∈ childrenOf feeds x, c ∈ res := by
  intro fuel
  induction fuel with
  | zero =>
    intro nodes ws res h x hx
    cases ws with
    | nil =>
      simp only [foldersLoop, Option.some.injEq] at h
      subst h
      exact Or.inl hx
    | cons w ws2 => exact Option.noConfusion h
  | succ f ih =>
    intro nodes ws res h x hx
    cases ws with
    | nil =>
      simp only [foldersLoop, Option.some.injEq] at h
      subst h
      exact Or.inl hx
    | cons w ws2 =>
      simp only [foldersLoop] at h
      rcases ih _ _ _ h x hx with h1 | h2
      · rcases List.mem_append.mp h1 with h3 | h4
        · exact Or.inl h3
        · have hxw : x = w := List.mem_singleton.mp h4
          subst hxw
          refine Or.inr (fun c hc => ?_)
          exact foldersLoop_mem feeds f _ _ _ h c
            (Or.inr (List.mem_append_left _ (List.mem_reverse.mpr hc)))
      · exact Or.inr h2

/-- Any property preserved along parent-to-children edges and holding on the
initial collection and worklist holds on everything the folder traversal
collects. -/
theorem foldersLoop_sound (feeds : List Feed) (P : Int → Prop)
    (hstep : ∀ y c, P y → c ∈ childrenOf feeds y → P c) :
    ∀ (fuel : Nat) (nodes ws res : List Int),
      foldersLoop feeds fuel nodes ws = some res →
      (∀ n ∈ nodes, P n) → (∀ w ∈ ws, P w) → ∀ x ∈ res, P x := by
  intro fuel
  induction fuel with
  | zero =>
    intro nodes ws res h hn hw x hx
    cases ws with
    | nil =>
      simp only [foldersLoop, Option.some.injEq] at h
      subst h
      exact hn x hx
    | cons w ws2 => exact Option.noConfusion h
  | succ f ih =>
    intro nodes ws res h hn hw x hx
    cases ws with
    | nil =>
      simp only [foldersLoop, Option.some.injEq] at h
      subst h
      exact hn x hx
    | cons w ws2 =>
      simp only [foldersLoop] at h
      refine ih _ _ _ h ?_ ?_ x hx
      · intro n hnmem
        rcases List.mem_append.mp hnmem with h1 | h2
        · exact hn n h1
        · have : n = w := List.mem_singleton.mp h2
          subst this
          exact hw n (List.mem_cons_self n ws2)
      · intro c hcmem
        rcases List.mem_append.mp hcmem with h1 | h2
        · exact hstep w c (hw w (List.mem_cons_self w ws2))
            (List.mem_reverse.mp h1)
        · exact hw c (List.mem_cons_of_mem w h2)

/-- Claim C7: when the folder traversal terminates, the folder stage keeps
exactly the feeds whose id is reachable from the given folder ids through the
parent-to-children relation, independent of traversal order. -/
theorem folder_expansion_reachable (dbFeeds : List Feed) (folders : List Int)
    (fuel : Nat) (af : List Feed)
    (h : folderStage dbFeeds (some folders) fuel = some af) :
    ∀ fd : Feed, fd ∈ af ↔
      (fd ∈ dbFeeds ∧ ReachableFrom dbFeeds folders fd.feedID) := by
  unfold folderStage at h
  dsimp only at h
  cases hl : foldersLoop dbFeeds fuel [] folders.reverse with
  | none => rw [hl] at h; exact Option.noConfusion h
  | some nodes =>
    rw [hl] at h
    have haf : af = dbFeeds.filter (fun f => nodes.contains f.feedID) :=
      (Option.some.inj h).symm
    subst haf
    have key : ∀ x : Int, x ∈ nodes ↔ ReachableFrom dbFeeds folders x := by
      intro x
      constructor
      · intro hx
        refine foldersLoop_sound dbFeeds (ReachableFrom dbFeeds folders)
          (fun y c hy hc => ReachableFrom.child hy hc)
          fuel [] folders.reverse nodes hl ?_ ?_ x hx
        · intro n hn
          exact absurd hn (List.not_mem_nil n)
        · intro w hw
          exact ReachableFrom.root (List.mem_reverse.mp hw)
      · intro hr
        induction hr with
        | root hx =>
          exact foldersLoop_mem dbFeeds fuel [] folders.reverse nodes hl _
            (Or.inr (List.mem_reverse.mpr hx))
        | child hy hc ihy =>
          rcases foldersLoop_closed dbFeeds fuel [] folders.reverse nodes hl _
              ihy with h1 | h2
          · exact absurd h1 (List.not_mem_nil _)
          · exact h2 _ hc
    intro fd
    rw [List.mem_filter]
    constructor
    · rintro ⟨h1, h2⟩
      exact ⟨h1, (key fd.feedID).mp (by simpa using h2)⟩
    · rintro ⟨h1, h2⟩
      exact ⟨h1, by simpa using (key fd.feedID).mpr h2⟩

/-- Witness for C7 on the feed tree A to B to C: feed C is reachable from
folder A, while feed A is not reachable from folder B. -/
theorem folder_expansion_reachable_witness :
    ReachableFrom exTree [1] 3 ∧ ¬ ReachableFrom exTree [2] 1 := by
  constructor
  · have h := folder_expansion_reachable exTree [1] 10 exTree rfl
    exact ((h feedC).mp (by decide)).2
  · intro hr
    have h := folder_expansion_reachable exTree [2] 10 [feedB, feedC] rfl
    have hmem := (h feedA).mpr ⟨by decide, hr⟩
    exact absurd hmem (by decide)
